import Mathlib

set_option maxHeartbeats 4000000

/-! Verification development for the kbdshrtct layout/profile configuration
engine.  The Go source (keyboard.go and the profile-store files) is embedded
shallowly: Go maps become association lists, in-place slice/map mutation
becomes explicit state passing, `time.Now()` becomes an explicit `now : Nat`
parameter, and fallible operations return `Except`/`Bool × state`.  The
`float64` fields `CustomX`/`CustomY` are only ever stored and copied by the
engine (never computed with), so they are embedded as `Int`. -/

namespace Kbd

/-- Association-list model of a Go `map[string]V`: first matching binding. -/
def lookupA {α : Type} (k : String) : List (String × α) → Option α
  | [] => none
  | (k', v) :: rest => if k' = k then some v else lookupA k rest

/-- Model of Go `m[k] = v`: replace the binding in place if present,
otherwise append a new binding. -/
def insertA {α : Type} (k : String) (v : α) : List (String × α) → List (String × α)
  | [] => [(k, v)]
  | (k', v') :: rest => if k' = k then (k, v) :: rest else (k', v') :: insertA k v rest

/-- Model of Go `delete(m, k)`. -/
def eraseA {α : Type} (k : String) : List (String × α) → List (String × α)
  | [] => []
  | (k', v') :: rest => if k' = k then eraseA k rest else (k', v') :: eraseA k rest

/-- Key: the atomic unit of a layout (struct `Key` in keyboard.go). -/
structure Key where
  id : String
  label : String
  imagePath : String
  imageData : String
  description : String
  color : String
  layer : String
  modifiers : List String
  row : Int
  col : Int
  side : String
  keyType : String
  customX : Int
  customY : Int
  isCustomPosition : Bool
deriving DecidableEq, Repr

/-- KeyboardLayout (struct `KeyboardLayout` in keyboard.go): layer name →
canonical key list, plus layer name → combo string → variant key list. -/
structure KeyboardLayout where
  name : String
  description : String
  layers : List (String × List Key)
  modifierMaps : List (String × List (String × List Key))
  createdAt : Nat
  modifiedAt : Nat
deriving DecidableEq, Repr

/-- Lexicographic comparison of character lists by unicode scalar value.
Go compares strings byte-wise over their UTF-8 encoding, which orders them
exactly like the lexicographic order on their scalar-value sequences. -/
def charListLt : List Char → List Char → Bool
  | [], [] => false
  | [], _ :: _ => true
  | _ :: _, [] => false
  | a :: as, b :: bs => if a < b then true else if b < a then false else charListLt as bs

/-- Go's `x < y` on strings. -/
def strLt (x y : String) : Bool := charListLt x.data y.data

/-- The fixed priority of built-in modifiers
(`modOrder := map[string]int{"ctrl": 0, "shift": 1, "alt": 2, "gui": 3}`). -/
def modOrder (m : String) : Option Nat :=
  if m = "ctrl" then some 0
  else if m = "shift" then some 1
  else if m = "alt" then some 2
  else if m = "gui" then some 3
  else none

/-- The swap condition of the double loop sorting `sortedMods` in
`GetKeysForActiveModifiers` and `UpdateModifierKeyByActiveModifiers`:
`swapNeeded x y` holds when `x` sits at the smaller index `i`, `y` at the
larger index `j`, and the code swaps them (both built-in with
`orderI > orderJ`; or `x` custom and `y` built-in; or both custom with
`x > y` as strings). -/
def swapNeeded (x y : String) : Bool :=
  match modOrder x, modOrder y with
  | some ox, some oy => decide (oy < ox)
  | some _, none => false
  | none, some _ => true
  | none, none => strLt y x

/-- One pass of the inner loop `for j := i+1; ...`: `x` is the current value
of `sortedMods[i]`, the list is `sortedMods[i+1..]`; each step swaps `x`
with the slot when `swapNeeded` fires.  Returns the final value at index
`i` together with the final contents of the later slots. -/
def innerPass (x : String) : List String → String × List String
  | [] => (x, [])
  | y :: ys =>
    if swapNeeded x y then
      let p := innerPass y ys
      (p.1, x :: p.2)
    else
      let p := innerPass x ys
      (p.1, y :: p.2)

/-- The outer loop `for i := 0; i < len(sortedMods); i++`, which runs once
per position: `fuel` counts the remaining iterations (the inner pass keeps
the length of the tail, so the fuel-0 branch with a non-empty list is never
reached from `sortMods`). -/
def sortModsAux : Nat → List String → List String
  | _, [] => []
  | 0, l => l
  | fuel + 1, x :: xs =>
    let p := innerPass x xs
    p.1 :: sortModsAux fuel p.2

/-- The full double loop `for i := 0; ... { for j := i+1; ... }` that both
`GetKeysForActiveModifiers` and `UpdateModifierKeyByActiveModifiers` run on
a copy of `activeModifiers`: one outer iteration per element. -/
def sortMods (l : List String) : List String := sortModsAux l.length l

/-- The canonical combo string `comboKey := strings.Join(sortedMods, "+")`
computed from the sorted copy of the active modifiers. -/
def comboKey (activeModifiers : List String) : String :=
  String.intercalate "+" (sortMods activeModifiers)

/-- The fixed priority order of the built-in modifiers, as the spec states
it: ctrl, shift, alt, gui. -/
def builtinPriority : List String := ["ctrl", "shift", "alt", "gui"]

/-- The canonical modifier order as the spec describes it (for comparison
with the code's sort): built-ins in the fixed priority order, followed by
the custom names sorted lexicographically. -/
def specCanonicalMods (l : List String) : List String :=
  builtinPriority.filter (fun b => decide (b ∈ l)) ++
    List.insertionSort (fun a b => strLt b a = false)
      (l.filter (fun m => decide (m ∉ builtinPriority)))

/-- The combo string as the spec describes it: the canonical modifier order
joined with "+". -/
def specCanonicalCombo (l : List String) : String :=
  String.intercalate "+" (specCanonicalMods l)

/-- The blank key built for a modifier-combination variant; this element-wise
construction appears, character for character, in
`generateAllModifierCombinations`, `GetKeysForActiveModifiers` and
`UpdateModifierKeyByActiveModifiers`. -/
def blankVariantKey (mods : List String) (baseKey : Key) : Key :=
  { id := baseKey.id
    label := ""
    imagePath := ""
    imageData := ""
    description := ""
    color := "#e0e0e0"
    layer := baseKey.layer
    modifiers := mods
    row := baseKey.row
    col := baseKey.col
    side := baseKey.side
    keyType := baseKey.keyType
    customX := baseKey.customX
    customY := baseKey.customY
    isCustomPosition := baseKey.isCustomPosition }

/-- The loop building `comboKeys`/`newComboKeys` from the base keys. -/
def blankVariant (mods : List String) (baseKeys : List Key) : List Key :=
  baseKeys.map (blankVariantKey mods)

/-- How a materialized variant key relates to its canonical base key:
content blanked, color set to the fixed neutral, modifiers set to the given
set, and identity and all placement fields copied from the base key. -/
def blankDerived (mods : List String) (b k : Key) : Prop :=
  k.id = b.id ∧ k.label = "" ∧ k.imagePath = "" ∧ k.imageData = "" ∧
  k.description = "" ∧ k.color = "#e0e0e0" ∧ k.layer = b.layer ∧
  k.modifiers = mods ∧ k.row = b.row ∧ k.col = b.col ∧ k.side = b.side ∧
  k.keyType = b.keyType ∧ k.customX = b.customX ∧ k.customY = b.customY ∧
  k.isCustomPosition = b.isCustomPosition

/-- The bit test `i&(1<<j) != 0` collecting `modifiers[j]` in ascending `j`
inside `generateAllModifierCombinations`. -/
def selectMods (modifiers : List String) (i : Nat) : List String :=
  match modifiers with
  | [] => []
  | m :: rest => (if i % 2 = 1 then [m] else []) ++ selectMods rest (i / 2)

/-- One iteration of the combination-generation loop: skip the empty
selection, otherwise store the blank variant under
`strings.Join(activeMods, "+")`. -/
def genCombosStep (baseKeys : List Key) (modifiers : List String)
    (m : List (String × List Key)) (i : Nat) : List (String × List Key) :=
  let activeMods := selectMods modifiers i
  if activeMods = [] then m
  else insertA (String.intercalate "+" activeMods) (blankVariant activeMods baseKeys) m

/-- Body of `generateAllModifierCombinations` acting on the inner map of one
layer: one iteration per `i < 2^n`. -/
def genCombos (baseKeys : List Key) (modifiers : List String)
    (inner : List (String × List Key)) : List (String × List Key) :=
  (List.range (2 ^ modifiers.length)).foldl (genCombosStep baseKeys modifiers) inner

/-- `generateAllModifierCombinations` on the whole layout.  In Go the writes
`kl.ModifierMaps[layerName][comboKey] = ...` require the inner map to exist
(writing to a nil map would panic); every caller creates the entry first, so
the missing-entry branch below is never reached by them. -/
def generateAllModifierCombinations (kl : KeyboardLayout) (layerName : String)
    (baseKeys : List Key) (modifiers : List String) : KeyboardLayout :=
  match lookupA layerName kl.modifierMaps with
  | some inner =>
      { kl with modifierMaps :=
          insertA layerName (genCombos baseKeys modifiers inner) kl.modifierMaps }
  | none => kl

/-- `GetKeysForActiveModifiers`: returns the key list for the layer under the
given active modifiers and the resulting layout state (the Go method mutates
`kl` in place when it materializes a missing combination). -/
def getKeysForActiveModifiers (kl : KeyboardLayout) (layer : String)
    (activeModifiers : List String) (now : Nat) : List Key × KeyboardLayout :=
  if activeModifiers = [] then
    match lookupA layer kl.layers with
    | some keys => (keys, kl)
    | none => ([], kl)
  else
    let sortedMods := sortMods activeModifiers
    let ck := comboKey activeModifiers
    match lookupA layer kl.modifierMaps with
    | some layerMods =>
      match lookupA ck layerMods with
      | some keys => (keys, kl)
      | none =>
        match lookupA layer kl.layers with
        | some baseKeys =>
          let newComboKeys := blankVariant sortedMods baseKeys
          (newComboKeys,
            { kl with
                modifierMaps := insertA layer (insertA ck newComboKeys layerMods) kl.modifierMaps
                modifiedAt := now })
        | none => ([], kl)
    | none => ([], kl)

/-- The in-place replacement loop `for i := range keys { if keys[i].ID ==
updatedKey.ID { keys[i] = updatedKey ... } }`: replaces the first key with
the given ID, or reports that no key matched. -/
def updateFirst (keys : List Key) (updatedKey : Key) : Option (List Key) :=
  match keys with
  | [] => none
  | k :: rest =>
    if k.id = updatedKey.id then some (updatedKey :: rest)
    else
      match updateFirst rest updatedKey with
      | some rest' => some (k :: rest')
      | none => none

/-- `UpdateKey`: replace a key by ID in the layer's canonical list, bumping
`ModifiedAt` on success. -/
def updateKey (kl : KeyboardLayout) (layer : String) (updatedKey : Key) (now : Nat) :
    Bool × KeyboardLayout :=
  match lookupA layer kl.layers with
  | some keys =>
    match updateFirst keys updatedKey with
    | some keys' =>
        (true, { kl with layers := insertA layer keys' kl.layers, modifiedAt := now })
    | none => (false, kl)
  | none => (false, kl)

/-- `UpdateModifierKeyByActiveModifiers`: with no modifiers delegates to
`UpdateKey`; otherwise canonicalizes, materializes the combination if it is
absent (this store happens before the key is looked up, and is kept even
when the key lookup then fails), and replaces the key by ID inside the
combination, bumping `ModifiedAt` only on success. -/
def updateModifierKeyByActiveModifiers (kl : KeyboardLayout) (layer : String)
    (activeModifiers : List String) (updatedKey : Key) (now : Nat) :
    Bool × KeyboardLayout :=
  if activeModifiers = [] then
    updateKey kl layer updatedKey now
  else
    let sortedMods := sortMods activeModifiers
    let ck := comboKey activeModifiers
    match lookupA layer kl.modifierMaps with
    | none => (false, kl)
    | some layerMods =>
      let layerMods' :=
        if (lookupA ck layerMods).isSome then layerMods
        else
          match lookupA layer kl.layers with
          | some baseKeys => insertA ck (blankVariant sortedMods baseKeys) layerMods
          | none => layerMods
      let kl₁ := { kl with modifierMaps := insertA layer layerMods' kl.modifierMaps }
      match lookupA ck layerMods' with
      | none => (false, kl₁)
      | some keys =>
        match updateFirst keys updatedKey with
        | some keys' =>
            (true,
              { kl₁ with
                  modifierMaps := insertA layer (insertA ck keys' layerMods') kl₁.modifierMaps
                  modifiedAt := now })
        | none => (false, kl₁)

/-- `AddCustomLayer`: registers the canonical list, creates the layer's
combination map, and generates all built-in modifier combinations for it. -/
def addCustomLayer (kl : KeyboardLayout) (layerName : String) (baseKeys : List Key)
    (now : Nat) : KeyboardLayout :=
  let kl₁ :=
    { kl with
        layers := insertA layerName baseKeys kl.layers
        modifierMaps := insertA layerName [] kl.modifierMaps }
  let kl₂ := generateAllModifierCombinations kl₁ layerName baseKeys
    ["ctrl", "shift", "alt", "gui"]
  { kl₂ with modifiedAt := now }

/-- `RemoveCustomLayer`: refuses the three protected names, otherwise deletes
the canonical list and the layer's combination map. -/
def removeCustomLayer (kl : KeyboardLayout) (layerName : String) (now : Nat) :
    Bool × KeyboardLayout :=
  if layerName = "base" ∨ layerName = "lower" ∨ layerName = "raise" then
    (false, kl)
  else
    match lookupA layerName kl.layers with
    | some _ =>
        (true,
          { kl with
              layers := eraseA layerName kl.layers
              modifierMaps := eraseA layerName kl.modifierMaps
              modifiedAt := now })
    | none => (false, kl)

/-- Profile (struct `Profile` in the profile-store file): an independent
workspace with its own layouts and cursor state. -/
structure Profile where
  id : String
  name : String
  icon : String
  backgroundColor : String
  description : String
  createdAt : Nat
  modifiedAt : Nat
  layouts : List KeyboardLayout
  currentLayout : String
  currentLayer : String
  activeModifiers : List String
  colorSchemes : List (String × String)
deriving DecidableEq, Repr

/-- ProfileManager (the profile store): ordered profiles, active-profile id,
last-modified stamp. -/
structure ProfileManager where
  profiles : List Profile
  activeProfile : String
  lastModified : Nat
deriving DecidableEq, Repr

/-- The "ensure current layout exists" statements of `validateProfiles`: if
no layout is named `CurrentLayout`, reset it to `Layouts[0].Name` (the
empty-layouts branch is unreachable behind the no-layouts error). -/
def repairCurrentLayout (p : Profile) : Profile :=
  if p.layouts.any (fun l => l.name == p.currentLayout) then p
  else
    match p.layouts with
    | [] => p
    | l0 :: _ => { p with currentLayout := l0.name }

/-- The "ensure current layer exists in current layout" statements of
`validateProfiles`: in the first layout named `CurrentLayout`, if
`CurrentLayer` is not one of its layers, reset it to "base". -/
def repairCurrentLayer (p : Profile) : Profile :=
  match p.layouts.find? (fun l => l.name == p.currentLayout) with
  | some lay =>
      if (lookupA p.currentLayer lay.layers).isSome then p
      else { p with currentLayer := "base" }
  | none => p

/-- The "ensure basic fields are set" statements of `validateProfiles`: fill
an empty id (generated from the clock), name, and background color. -/
def fillProfileFields (p : Profile) (now : Nat) : Profile :=
  let p3 := if p.id = "" then { p with id := "profile_" ++ toString now } else p
  let p4 := if p3.name = "" then { p3 with name := "Unnamed Profile" } else p3
  if p4.backgroundColor = "" then { p4 with backgroundColor := "#6366f1" } else p4

/-- The per-profile body of `validateProfiles`: error when the profile has no
layouts; otherwise run the three repair statement groups in program order
(the Go id generator uses `time.Now().UnixNano()`, embedded as the explicit
`now`). -/
def validateProfile (p : Profile) (now : Nat) : Except String Profile :=
  match p.layouts with
  | [] => .error ("profile " ++ p.name ++ " has no layouts")
  | _ :: _ => .ok (fillProfileFields (repairCurrentLayer (repairCurrentLayout p)) now)

/-- The `for i := range pm.Profiles` loop of `validateProfiles`: repair the
profiles in order, stopping at the first error. -/
def validateAll (now : Nat) : List Profile → Except String (List Profile)
  | [] => .ok []
  | p :: rest =>
    match validateProfile p now with
    | .error e => .error e
    | .ok q =>
      match validateAll now rest with
      | .error e => .error e
      | .ok qs => .ok (q :: qs)

/-- `validateProfiles`: error when no profiles exist; reset a dangling
`ActiveProfile` to the first profile's id; then run the per-profile repair
over every profile, stopping at the first error.  (The Go code mutates the
manager in place and its caller discards it on error, so the error cases
carry no repaired state.) -/
def validateProfiles (pm : ProfileManager) (now : Nat) : Except String ProfileManager :=
  match pm.profiles with
  | [] => .error "no profiles found"
  | p0 :: _ =>
    let active :=
      if pm.profiles.any (fun p => p.id == pm.activeProfile) then pm.activeProfile
      else p0.id
    match validateAll now pm.profiles with
    | .ok ps => .ok { pm with profiles := ps, activeProfile := active }
    | .error e => .error e

/-- The `for i, profile := range pm.Profiles` loop of
`ProfileManager.DeleteProfile`: find the first profile with the given id,
retarget a matching `ActiveProfile` to the previous profile (`Profiles[i-1]`,
carried here as `prevOpt`) or, at index 0, to `Profiles[i+1]` (the head of
the rest), and remove the found profile.  The "" fallback corresponds to the
out-of-range access `Profiles[1]` on a single-profile slice, which the
length guard in `DeleteProfile` makes unreachable. -/
def delLoop (profileID active : String) :
    List Profile → Option Profile → Option (List Profile × String)
  | [], _ => none
  | p :: rest, prevOpt =>
    if p.id = profileID then
      let newActive :=
        if active = profileID then
          match prevOpt with
          | some prev => prev.id
          | none =>
            match rest with
            | r :: _ => r.id
            | [] => ""
        else active
      some (rest, newActive)
    else
      match delLoop profileID active rest (some p) with
      | some (rest', na) => some (p :: rest', na)
      | none => none

/-- `ProfileManager.DeleteProfile`: refuse when at most one profile exists;
otherwise remove the first profile with the given id, retargeting
`ActiveProfile` to a neighbour when the deleted profile was active, and bump
`LastModified`. -/
def deleteProfile (pm : ProfileManager) (profileID : String) (now : Nat) :
    Except String ProfileManager :=
  if pm.profiles.length ≤ 1 then
    .error "cannot delete profile - at least one profile must exist"
  else
    match delLoop profileID pm.activeProfile pm.profiles none with
    | none => .error ("profile with ID " ++ profileID ++ " not found")
    | some (ps, na) =>
      .ok { profiles := ps
            activeProfile := na
            lastModified := now }

/-- Persisted files: path → contents. -/
structure FileSystem where
  files : List (String × String)
deriving DecidableEq, Repr

/-- Outcomes of the environment-dependent steps of `SaveProfiles`, in program
order: directory creation, profile-path resolution, JSON marshalling, the
temp-file write, and the rename. -/
structure DiskEnv where
  ensureDirOk : Bool
  pathOk : Bool
  marshalOk : Bool
  writeOk : Bool
  renameOk : Bool
deriving DecidableEq, Repr

/-- `SaveProfiles`: ensure the config dir, resolve the path, bump
`LastModified`, marshal (`ser` abstracts `json.MarshalIndent`), write the
temp sibling `<path>.tmp`, and rename it over the real path; a rename
failure removes the temp file.  Returns the operation result, the resulting
file system, and the resulting in-memory store. -/
def saveProfiles (env : DiskEnv) (fs : FileSystem) (pm : ProfileManager)
    (ser : ProfileManager → String) (profilePath : String) (now : Nat) :
    Except String Unit × FileSystem × ProfileManager :=
  if !env.ensureDirOk then (.error "failed to create config directory", fs, pm)
  else if !env.pathOk then (.error "failed to get home directory", fs, pm)
  else
    let pm' := { pm with lastModified := now }
    if !env.marshalOk then (.error "failed to marshal profiles", fs, pm')
    else
      let data := ser pm'
      let tempPath := profilePath ++ ".tmp"
      if !env.writeOk then (.error "failed to write temporary profiles file", fs, pm')
      else
        let fs₁ : FileSystem := { files := insertA tempPath data fs.files }
        if !env.renameOk then
          (.error "failed to move profiles to final location",
            { files := eraseA tempPath fs₁.files }, pm')
        else
          (.ok (),
            { files := insertA profilePath data (eraseA tempPath fs₁.files) }, pm')

/-- A sample key with custom content and a custom position, for concrete
witnesses. -/
def kSample : Key :=
  { id := "L00"
    label := "Q"
    imagePath := "p.png"
    imageData := "data:image/png;base64,AAA"
    description := "letter Q"
    color := "#ff0000"
    layer := "base"
    modifiers := []
    row := 2
    col := 0
    side := "left"
    keyType := "normal"
    customX := 7
    customY := 3
    isCustomPosition := true }

/-- A second sample key. -/
def kSample2 : Key :=
  { id := "R05"
    label := "P"
    imagePath := ""
    imageData := ""
    description := ""
    color := "#00ff00"
    layer := "base"
    modifiers := []
    row := 0
    col := 5
    side := "right"
    keyType := "normal"
    customX := 0
    customY := 0
    isCustomPosition := false }

/-- A sample layout holding one layer "base" with an empty combination map,
for concrete witnesses. -/
def klSample : KeyboardLayout :=
  { name := "Sample"
    description := ""
    layers := [("base", [kSample, kSample2])]
    modifierMaps := [("base", [])]
    createdAt := 0
    modifiedAt := 0 }

/-- A sample layout with a removable custom layer "macro". -/
def klSample2 : KeyboardLayout :=
  { name := "Sample2"
    description := ""
    layers := [("base", [kSample, kSample2]), ("macro", [kSample2])]
    modifierMaps := [("base", []), ("macro", [])]
    createdAt := 0
    modifiedAt := 0 }

/-- How a repaired profile relates to the profile it was loaded as: layouts
and all non-repaired fields unchanged, empty id/name/backgroundColor filled
with the generated or default values, a dangling currentLayout reset to the
first layout's name, and a currentLayer missing from the resolved layout
reset to "base". -/
def repairRel (now : Nat) (p q : Profile) : Prop :=
  q.layouts = p.layouts ∧
  q.icon = p.icon ∧
  q.description = p.description ∧
  q.createdAt = p.createdAt ∧
  q.modifiedAt = p.modifiedAt ∧
  q.activeModifiers = p.activeModifiers ∧
  q.colorSchemes = p.colorSchemes ∧
  q.id = (if p.id = "" then "profile_" ++ toString now else p.id) ∧
  q.name = (if p.name = "" then "Unnamed Profile" else p.name) ∧
  q.backgroundColor =
    (if p.backgroundColor = "" then "#6366f1" else p.backgroundColor) ∧
  ∀ l0 ls, p.layouts = l0 :: ls →
    (p.layouts.any (fun l => l.name == p.currentLayout) = true →
      q.currentLayout = p.currentLayout) ∧
    (p.layouts.any (fun l => l.name == p.currentLayout) = false →
      q.currentLayout = l0.name) ∧
    (p.layouts.any (fun l => l.name == p.currentLayout) = true →
      q.currentLayer =
        (match p.layouts.find? (fun l => l.name == p.currentLayout) with
        | some lay =>
            if (lookupA p.currentLayer lay.layers).isSome then p.currentLayer
            else "base"
        | none => p.currentLayer)) ∧
    (p.layouts.any (fun l => l.name == p.currentLayout) = false →
      q.currentLayer =
        (if (lookupA p.currentLayer l0.layers).isSome then p.currentLayer
          else "base"))

/-- A sample profile whose cursor state dangles (its currentLayout and
currentLayer name nothing in its layouts). -/
def pSampleA : Profile :=
  { id := "pA"
    name := "Alpha"
    icon := ""
    backgroundColor := "#112233"
    description := ""
    createdAt := 0
    modifiedAt := 0
    layouts := [klSample]
    currentLayout := "Ghost"
    currentLayer := "ghostLayer"
    activeModifiers := []
    colorSchemes := [] }

/-- A sample profile with empty name and background color and a valid
cursor. -/
def pSampleB : Profile :=
  { id := "pB"
    name := ""
    icon := ""
    backgroundColor := ""
    description := ""
    createdAt := 0
    modifiedAt := 0
    layouts := [klSample2]
    currentLayout := "Sample2"
    currentLayer := "base"
    activeModifiers := ["ctrl"]
    colorSchemes := [] }

/-- A sample store whose active-profile pointer dangles. -/
def pmDangling : ProfileManager :=
  { profiles := [pSampleA, pSampleB]
    activeProfile := "ghost"
    lastModified := 0 }

/-- A sample store with two profiles and a valid active pointer. -/
def pmSample : ProfileManager :=
  { profiles := [pSampleA, pSampleB]
    activeProfile := "pA"
    lastModified := 0 }

/-- A sample store holding a single profile. -/
def pmOne : ProfileManager :=
  { profiles := [pSampleA]
    activeProfile := "pA"
    lastModified := 0 }

/-- A constant stand-in for the JSON marshaller in concrete witnesses. -/
def serConst : ProfileManager → String := fun _ => "SERIALIZED"

/-- A sample file system already holding a persisted profiles file. -/
def fsSample : FileSystem := { files := [("profiles.json", "OLD")] }

/-- A disk environment in which only the final rename fails. -/
def envRenameFail : DiskEnv :=
  { ensureDirOk := true, pathOk := true, marshalOk := true
    writeOk := true, renameOk := false }

/-- A disk environment in which every step succeeds. -/
def envAllOk : DiskEnv :=
  { ensureDirOk := true, pathOk := true, marshalOk := true
    writeOk := true, renameOk := true }

/-! Theory of the string comparison and of the modifier sort. -/

theorem charListLt_irrefl (a : List Char) : charListLt a a = false := by
  induction a with
  | nil => rfl
  | cons x xs ih => simp [charListLt, ih, lt_irrefl]

theorem charListLt_asymm {a b : List Char} (h : charListLt a b = true) :
    charListLt b a = false := by
  induction a generalizing b with
  | nil =>
    cases b with
    | nil => simp [charListLt] at h
    | cons y ys => simp [charListLt]
  | cons x xs ih =>
    cases b with
    | nil => simp [charListLt] at h
    | cons y ys =>
      simp only [charListLt] at h ⊢
      by_cases hxy : x < y
      · have hyx : ¬ y < x := lt_asymm hxy
        simp [hxy, hyx]
      · by_cases hyx : y < x
        · simp [hxy, hyx] at h
        · have hxey : x = y := le_antisymm (le_of_not_lt hyx) (le_of_not_lt hxy)
          subst hxey
          simp [hxy] at h ⊢
          exact ih h

theorem charListLt_trans {a b c : List Char} (h1 : charListLt a b = true)
    (h2 : charListLt b c = true) : charListLt a c = true := by
  induction a generalizing b c with
  | nil =>
    cases b with
    | nil => simp [charListLt] at h1
    | cons y ys =>
      cases c with
      | nil => simp [charListLt] at h2
      | cons z zs => simp [charListLt]
  | cons x xs ih =>
    cases b with
    | nil => simp [charListLt] at h1
    | cons y ys =>
      cases c with
      | nil => simp [charListLt] at h2
      | cons z zs =>
        simp only [charListLt] at h1 h2 ⊢
        by_cases hxy : x < y
        · by_cases hyz : y < z
          · simp [lt_trans hxy hyz]
          · by_cases hzy : z < y
            · simp [hyz, hzy] at h2
            · have hyez : y = z := le_antisymm (le_of_not_lt hzy) (le_of_not_lt hyz)
              subst hyez
              simp [hxy]
        · by_cases hyx : y < x
          · simp [hxy, hyx] at h1
          · have hxey : x = y := le_antisymm (le_of_not_lt hyx) (le_of_not_lt hxy)
            subst hxey
            simp [hxy] at h1
            by_cases hxz : x < z
            · simp [hxz]
            · by_cases hzx : z < x
              · simp [hxz, hzx] at h2
              · simp [hxz, hzx] at h2 ⊢
                exact ih h1 h2

theorem charListLt_total {a b : List Char} (h : a ≠ b) :
    charListLt a b = true ∨ charListLt b a = true := by
  induction a generalizing b with
  | nil =>
    cases b with
    | nil => exact absurd rfl h
    | cons y ys => left; simp [charListLt]
  | cons x xs ih =>
    cases b with
    | nil => right; simp [charListLt]
    | cons y ys =>
      by_cases hxy : x < y
      · left; simp [charListLt, hxy]
      · by_cases hyx : y < x
        · right; simp [charListLt, hyx]
        · have hxey : x = y := le_antisymm (le_of_not_lt hyx) (le_of_not_lt hxy)
          subst hxey
          have hne : xs ≠ ys := fun hh => h (by rw [hh])
          rcases ih hne with h' | h'
          · left; simp [charListLt, hxy, h']
          · right; simp [charListLt, hxy, h']

theorem strLt_irrefl (x : String) : strLt x x = false := charListLt_irrefl _

theorem strLt_asymm {x y : String} (h : strLt x y = true) : strLt y x = false :=
  charListLt_asymm h

theorem strLt_trans {x y z : String} (h1 : strLt x y = true) (h2 : strLt y z = true) :
    strLt x z = true :=
  charListLt_trans h1 h2

theorem strLt_total {x y : String} (h : x ≠ y) :
    strLt x y = true ∨ strLt y x = true := by
  apply charListLt_total
  intro hd
  apply h
  cases x
  cases y
  simp_all

theorem strLt_le_trans {x y z : String} (h1 : strLt y x = false)
    (h2 : strLt z y = false) : strLt z x = false := by
  by_cases hxy : x = y
  · subst hxy; exact h2
  · by_cases hyz : y = z
    · subst hyz; exact h1
    · by_cases hxz : x = z
      · subst hxz; exact strLt_irrefl x
      · have hx : strLt x y = true := by
          rcases strLt_total hxy with h | h
          · exact h
          · rw [h] at h1; cases h1
        have hy : strLt y z = true := by
          rcases strLt_total hyz with h | h
          · exact h
          · rw [h] at h2; cases h2
        have := strLt_trans hx hy
        exact strLt_asymm this

theorem modOrder_inj {x y : String} {n : Nat} (hx : modOrder x = some n)
    (hy : modOrder y = some n) : x = y := by
  unfold modOrder at hx hy
  split_ifs at hx hy <;> (try simp_all) <;> omega

theorem modOrder_eq_none_iff {m : String} : modOrder m = none ↔ m ∉ builtinPriority := by
  unfold modOrder builtinPriority
  split_ifs <;> simp_all

theorem swapNeeded_self (x : String) : swapNeeded x x = false := by
  unfold swapNeeded
  rcases hx : modOrder x with _ | ox
  · simp [strLt_irrefl]
  · simp

theorem swapNeeded_asymm {x y : String} (h : swapNeeded x y = true) :
    swapNeeded y x = false := by
  unfold swapNeeded at h ⊢
  rcases hx : modOrder x with _ | ox <;> rcases hy : modOrder y with _ | oy <;>
    simp [hx, hy] at h ⊢
  · exact strLt_asymm h
  · omega

theorem swapNeeded_antisymm {x y : String} (h1 : swapNeeded x y = false)
    (h2 : swapNeeded y x = false) : x = y := by
  unfold swapNeeded at h1 h2
  rcases hx : modOrder x with _ | ox <;> rcases hy : modOrder y with _ | oy <;>
    simp [hx, hy] at h1 h2
  · by_contra hne
    rcases strLt_total hne with h | h
    · rw [h] at h2; cases h2
    · rw [h] at h1; cases h1
  · have hoxy : ox = oy := by omega
    exact modOrder_inj hx (hoxy ▸ hy)

theorem swapNeeded_le_trans {x y z : String} (h1 : swapNeeded x y = false)
    (h2 : swapNeeded y z = false) : swapNeeded x z = false := by
  unfold swapNeeded at h1 h2 ⊢
  rcases hx : modOrder x with _ | ox <;> rcases hy : modOrder y with _ | oy <;>
    rcases hz : modOrder z with _ | oz <;> simp [hx, hy, hz] at h1 h2 ⊢
  · exact strLt_le_trans h1 h2
  · omega

/-- The non-strict order that the modifier sort establishes: `x` may stand
before `y` without the double loop swapping them. -/
def modLe (x y : String) : Prop := swapNeeded x y = false

instance : DecidableRel modLe := fun x y => by unfold modLe; infer_instance

instance : IsTrans String modLe := ⟨fun _ _ _ => swapNeeded_le_trans⟩

instance : IsAntisymm String modLe := ⟨fun _ _ => swapNeeded_antisymm⟩

instance : IsTotal String modLe := ⟨fun x y => by
  unfold modLe
  by_cases h : swapNeeded x y = true
  · right; exact swapNeeded_asymm h
  · left; simpa using h⟩

theorem innerPass_perm (x : String) (l : List String) :
    List.Perm ((innerPass x l).1 :: (innerPass x l).2) (x :: l) := by
  induction l generalizing x with
  | nil => simp [innerPass]
  | cons y ys ih =>
    simp only [innerPass]
    by_cases h : swapNeeded x y = true
    · simp only [h, if_true]
      exact (List.Perm.swap x (innerPass y ys).1 (innerPass y ys).2).trans ((ih y).cons x)
    · simp only [h, if_false]
      exact ((List.Perm.swap y (innerPass x ys).1 (innerPass x ys).2).trans
        ((ih x).cons y)).trans (List.Perm.swap x y ys)

theorem innerPass_min (x : String) (l : List String) :
    ∀ z ∈ x :: l, modLe (innerPass x l).1 z := by
  induction l generalizing x with
  | nil =>
    intro z hz
    simp only [innerPass]
    rcases List.mem_singleton.mp hz with rfl
    exact swapNeeded_self z
  | cons y ys ih =>
    intro z hz
    simp only [innerPass]
    by_cases h : swapNeeded x y = true
    · simp only [h, if_true]
      rcases List.mem_cons.mp hz with rfl | hz'
      · have hm : modLe (innerPass y ys).1 y := ih y y (List.mem_cons_self y ys)
        have hyx : modLe y z := swapNeeded_asymm h
        exact swapNeeded_le_trans hm hyx
      · exact ih y z hz'
    · simp only [h, if_false]
      rcases List.mem_cons.mp hz with rfl | hz'
      · exact ih z z (List.mem_cons_self z ys)
      · rcases List.mem_cons.mp hz' with rfl | hz''
        · have hm : modLe (innerPass x ys).1 x := ih x x (List.mem_cons_self x ys)
          have hxy : modLe x z := by simpa [modLe] using h
          exact swapNeeded_le_trans hm hxy
        · exact ih x z (List.mem_cons.mpr (Or.inr hz''))

theorem innerPass_length (x : String) (l : List String) :
    (innerPass x l).2.length = l.length := by
  induction l generalizing x with
  | nil => rfl
  | cons y ys ih =>
    simp only [innerPass]
    by_cases h : swapNeeded x y = true
    · simp [h, ih]
    · simp [h, ih]

theorem sortModsAux_perm (fuel : Nat) :
    ∀ l : List String, l.length ≤ fuel → List.Perm (sortModsAux fuel l) l := by
  induction fuel with
  | zero =>
    intro l hl
    match l with
    | [] => simp [sortModsAux]
  | succ fuel ih =>
    intro l hl
    match l with
    | [] => simp [sortModsAux]
    | x :: xs =>
      simp only [sortModsAux]
      have hlen : (innerPass x xs).2.length ≤ fuel := by
        rw [innerPass_length]
        simpa using hl
      exact ((ih _ hlen).cons _).trans (innerPass_perm x xs)

theorem sortModsAux_sorted (fuel : Nat) :
    ∀ l : List String, l.length ≤ fuel → (sortModsAux fuel l).Sorted modLe := by
  induction fuel with
  | zero =>
    intro l hl
    match l with
    | [] => simp [sortModsAux]
  | succ fuel ih =>
    intro l hl
    match l with
    | [] => simp [sortModsAux]
    | x :: xs =>
      simp only [sortModsAux]
      rw [List.sorted_cons]
      have hlen : (innerPass x xs).2.length ≤ fuel := by
        rw [innerPass_length]
        simpa using hl
      constructor
      · intro b hb
        have hb1 : b ∈ (innerPass x xs).2 := (sortModsAux_perm fuel _ hlen).mem_iff.mp hb
        have hb2 : b ∈ x :: xs :=
          (innerPass_perm x xs).mem_iff.mp (List.mem_cons.mpr (Or.inr hb1))
        exact innerPass_min x xs b hb2
      · exact ih _ hlen

theorem sortMods_perm (l : List String) : List.Perm (sortMods l) l :=
  sortModsAux_perm l.length l le_rfl

theorem sortMods_sorted (l : List String) : (sortMods l).Sorted modLe :=
  sortModsAux_sorted l.length l le_rfl

instance : IsTrans String (fun a b => strLt b a = false) :=
  ⟨fun _ _ _ h1 h2 => strLt_le_trans h1 h2⟩

instance : IsTotal String (fun a b => strLt b a = false) := ⟨fun a b => by
  by_cases h : strLt b a = true
  · right; exact strLt_asymm h
  · left; simpa using h⟩

theorem specCanonicalMods_sorted (l : List String) :
    (specCanonicalMods l).Sorted modLe := by
  unfold specCanonicalMods
  rw [List.Sorted, List.pairwise_append]
  refine ⟨?_, ?_, ?_⟩
  · have hs : builtinPriority.Sorted modLe := by decide
    exact List.Pairwise.sublist (List.filter_sublist _) hs
  · have hsorted := List.sorted_insertionSort (fun a b => strLt b a = false)
      (l.filter (fun m => decide (m ∉ builtinPriority)))
    refine List.Pairwise.imp_of_mem ?_ hsorted
    intro a b ha hb hr
    have ha' : a ∈ l.filter (fun m => decide (m ∉ builtinPriority)) :=
      (List.perm_insertionSort _ _).mem_iff.mp ha
    have hb' : b ∈ l.filter (fun m => decide (m ∉ builtinPriority)) :=
      (List.perm_insertionSort _ _).mem_iff.mp hb
    have haN : modOrder a = none :=
      modOrder_eq_none_iff.mpr (by simpa using (List.mem_filter.mp ha').2)
    have hbN : modOrder b = none :=
      modOrder_eq_none_iff.mpr (by simpa using (List.mem_filter.mp hb').2)
    show swapNeeded a b = false
    unfold swapNeeded
    simp [haN, hbN, hr]
  · intro a ha b hb
    have haB : a ∈ builtinPriority := (List.mem_filter.mp ha).1
    have hbN : modOrder b = none :=
      modOrder_eq_none_iff.mpr
        (by simpa using (List.mem_filter.mp ((List.perm_insertionSort _ _).mem_iff.mp hb)).2)
    have haS : ∃ oa, modOrder a = some oa := by
      rcases hoa : modOrder a with _ | oa
      · exact absurd haB (modOrder_eq_none_iff.mp hoa)
      · exact ⟨oa, rfl⟩
    rcases haS with ⟨oa, hoa⟩
    show swapNeeded a b = false
    unfold swapNeeded
    simp [hoa, hbN]

theorem specCanonicalMods_perm {l : List String} (h : l.Nodup) :
    List.Perm (specCanonicalMods l) l := by
  unfold specCanonicalMods
  have h1 : List.Perm (builtinPriority.filter (fun b => decide (b ∈ l)))
      (l.filter (fun m => decide (m ∈ builtinPriority))) := by
    rw [List.perm_ext_iff_of_nodup (List.Nodup.filter _ (by decide)) (List.Nodup.filter _ h)]
    intro a
    simp [List.mem_filter, and_comm]
  have h2 := List.perm_insertionSort (fun a b => strLt b a = false)
    (l.filter (fun m => decide (m ∉ builtinPriority)))
  have h3 := List.filter_append_perm (fun m => decide (m ∈ builtinPriority)) l
  have h4 : (fun m => !decide (m ∈ builtinPriority)) =
      (fun m => decide (m ∉ builtinPriority)) := by
    funext m
    simp [decide_not]
  rw [h4] at h3
  exact (h1.append h2).trans h3

theorem sortMods_eq_spec {l l' : List String} (hnd : l.Nodup) (hp : List.Perm l l') :
    sortMods l' = specCanonicalMods l :=
  List.eq_of_perm_of_sorted
    ((sortMods_perm l').trans (hp.symm.trans (specCanonicalMods_perm hnd).symm))
    (sortMods_sorted l') (specCanonicalMods_sorted l)

/-! Lemmas about the association-list maps. -/

theorem lookupA_insertA_self {α : Type} (k : String) (v : α) (m : List (String × α)) :
    lookupA k (insertA k v m) = some v := by
  induction m with
  | nil => simp [insertA, lookupA]
  | cons p rest ih =>
    obtain ⟨k', v'⟩ := p
    by_cases h : k' = k
    · simp [insertA, h, lookupA]
    · simp [insertA, h, lookupA, ih]

theorem lookupA_insertA_ne {α : Type} {k k' : String} (h : k' ≠ k) (v : α)
    (m : List (String × α)) : lookupA k (insertA k' v m) = lookupA k m := by
  induction m with
  | nil => simp [insertA, lookupA, h]
  | cons p rest ih =>
    obtain ⟨k'', v''⟩ := p
    by_cases h2 : k'' = k'
    · subst h2
      simp [insertA, lookupA, h]
    · by_cases h3 : k'' = k
      · simp [insertA, lookupA, h2, h3, Ne.symm h]
      · simp [insertA, lookupA, h2, h3, ih]

theorem lookupA_eraseA_self {α : Type} (k : String) (m : List (String × α)) :
    lookupA k (eraseA k m) = none := by
  induction m with
  | nil => simp [eraseA, lookupA]
  | cons p rest ih =>
    obtain ⟨k', v'⟩ := p
    by_cases h : k' = k
    · simp [eraseA, h, ih]
    · simp [eraseA, lookupA, h, ih]

theorem lookupA_eraseA_ne {α : Type} {k k' : String} (h : k' ≠ k)
    (m : List (String × α)) : lookupA k (eraseA k' m) = lookupA k m := by
  induction m with
  | nil => simp [eraseA, lookupA]
  | cons p rest ih =>
    obtain ⟨k'', v''⟩ := p
    by_cases h2 : k'' = k'
    · subst h2
      simp [eraseA, lookupA, h, ih]
    · simp [eraseA, lookupA, h2, ih]

theorem mem_insertA {α : Type} {e : String × α} {k : String} {v : α}
    {m : List (String × α)} (h : e ∈ insertA k v m) : e ∈ m ∨ e = (k, v) := by
  induction m with
  | nil => simpa [insertA] using h
  | cons p rest ih =>
    obtain ⟨k', v'⟩ := p
    by_cases hk : k' = k
    · simp only [insertA, if_pos hk] at h
      rcases List.mem_cons.mp h with rfl | h2
      · right; rfl
      · left; exact List.mem_cons.mpr (Or.inr h2)
    · simp only [insertA, if_neg hk] at h
      rcases List.mem_cons.mp h with rfl | h2
      · left; exact List.mem_cons.mpr (Or.inl rfl)
      · rcases ih h2 with h3 | h3
        · left; exact List.mem_cons.mpr (Or.inr h3)
        · right; exact h3

/-! Claim C1: order-invariance and shape of the canonical combo string. -/

/-- C1: for every duplicate-free set of modifier names (built-in or custom)
and every permutation of it, the canonicalizer used by
`getKeysForActiveModifiers` and `updateModifierKeyByActiveModifiers`
produces one identical combo string: the built-ins in the fixed priority
order ctrl, shift, alt, gui, then the custom names sorted
lexicographically, joined with "+". -/
theorem comboKey_canonical {l l' : List String} (hnd : l.Nodup)
    (hp : List.Perm l l') : comboKey l' = specCanonicalCombo l := by
  unfold comboKey specCanonicalCombo
  rw [sortMods_eq_spec hnd hp]

theorem comboKey_canonical_witness :
    comboKey ["Hyper", "ctrl", "shift"] = specCanonicalCombo ["shift", "Hyper", "ctrl"] :=
  comboKey_canonical (by decide) (by decide)

/-! Lemmas about updateFirst. -/

theorem updateFirst_none {keys : List Key} {u : Key}
    (h : ∀ k ∈ keys, k.id ≠ u.id) : updateFirst keys u = none := by
  induction keys with
  | nil => rfl
  | cons k rest ih =>
    have hk : k.id ≠ u.id := h k (List.mem_cons_self k rest)
    have hrest : updateFirst rest u = none :=
      ih (fun k' hk' => h k' (List.mem_cons.mpr (Or.inr hk')))
    simp [updateFirst, hk, hrest]

theorem updateFirst_found {pre : List Key} {k u : Key} (post : List Key)
    (hpre : ∀ k' ∈ pre, k'.id ≠ u.id) (hk : k.id = u.id) :
    updateFirst (pre ++ k :: post) u = some (pre ++ u :: post) := by
  induction pre with
  | nil => simp [updateFirst, hk]
  | cons p rest ih =>
    have hp : p.id ≠ u.id := hpre p (List.mem_cons_self p rest)
    have := ih (fun k' hk' => hpre k' (List.mem_cons.mpr (Or.inr hk')))
    simp [updateFirst, hp, this]

/-! Claim C2: keysFor behaviour and lazy-materialization idempotence. -/

/-- C2: for a layer present in the layout (with its combination map),
`getKeysForActiveModifiers` returns the canonical list when the active
modifier set is empty; returns the stored variant when the canonicalized
combo is already stored; otherwise materializes the blank variant, stores
it under the combo string, and returns it; and calling it again with the
same arguments returns the same stored variant and leaves the state
unchanged (no duplicate materialization). -/
theorem getKeysForActiveModifiers_spec (kl : KeyboardLayout) (layer : String)
    (mods : List String) (now now' : Nat) (canon : List Key)
    (lm : List (String × List Key))
    (hcanon : lookupA layer kl.layers = some canon)
    (hlm : lookupA layer kl.modifierMaps = some lm) :
    (mods = [] → getKeysForActiveModifiers kl layer mods now = (canon, kl)) ∧
    (∀ ks, mods ≠ [] → lookupA (comboKey mods) lm = some ks →
      getKeysForActiveModifiers kl layer mods now = (ks, kl)) ∧
    (mods ≠ [] → lookupA (comboKey mods) lm = none →
      getKeysForActiveModifiers kl layer mods now =
        (blankVariant (sortMods mods) canon,
          { kl with
              modifierMaps :=
                insertA layer
                  (insertA (comboKey mods) (blankVariant (sortMods mods) canon) lm)
                  kl.modifierMaps
              modifiedAt := now }) ∧
      lookupA (comboKey mods)
          ((lookupA layer
              (getKeysForActiveModifiers kl layer mods now).2.modifierMaps).getD [])
        = some (blankVariant (sortMods mods) canon)) ∧
    getKeysForActiveModifiers (getKeysForActiveModifiers kl layer mods now).2 layer mods now'
      = getKeysForActiveModifiers kl layer mods now := by
  refine ⟨?_, ?_, ?_, ?_⟩
  · intro h0
    subst h0
    simp [getKeysForActiveModifiers, hcanon]
  · intro ks hne hstored
    simp [getKeysForActiveModifiers, hne, hlm, hstored]
  · intro hne hnot
    have hmain : getKeysForActiveModifiers kl layer mods now =
        (blankVariant (sortMods mods) canon,
          { kl with
              modifierMaps :=
                insertA layer
                  (insertA (comboKey mods) (blankVariant (sortMods mods) canon) lm)
                  kl.modifierMaps
              modifiedAt := now }) := by
      simp [getKeysForActiveModifiers, hne, hlm, hnot, hcanon]
    refine ⟨hmain, ?_⟩
    rw [hmain]
    simp [lookupA_insertA_self]
  · by_cases h0 : mods = []
    · subst h0
      simp [getKeysForActiveModifiers, hcanon]
    · rcases h : lookupA (comboKey mods) lm with _ | ks
      · have h1 : getKeysForActiveModifiers kl layer mods now =
            (blankVariant (sortMods mods) canon,
              { kl with
                  modifierMaps :=
                    insertA layer
                      (insertA (comboKey mods) (blankVariant (sortMods mods) canon) lm)
                      kl.modifierMaps
                  modifiedAt := now }) := by
          simp [getKeysForActiveModifiers, h0, hlm, h, hcanon]
        rw [h1]
        simp [getKeysForActiveModifiers, h0, lookupA_insertA_self]
      · have h1 : getKeysForActiveModifiers kl layer mods now = (ks, kl) := by
          simp [getKeysForActiveModifiers, h0, hlm, h]
        rw [h1]
        simp [getKeysForActiveModifiers, h0, hlm, h]

theorem getKeysForActiveModifiers_spec_witness :
    getKeysForActiveModifiers
        (getKeysForActiveModifiers klSample "base" ["shift", "ctrl"] 1).2
        "base" ["shift", "ctrl"] 2
      = getKeysForActiveModifiers klSample "base" ["shift", "ctrl"] 1 :=
  (getKeysForActiveModifiers_spec klSample "base" ["shift", "ctrl"] 1 2
    [kSample, kSample2] [] (by decide) (by decide)).2.2.2

/-! Claim C10: the modifier update is not atomic on failure. -/

/-- C10: for a layer with a combination map, a non-empty modifier set whose
combo is not yet stored, and an update key whose ID is absent from the
canonical list, `updateModifierKeyByActiveModifiers` reports failure and
yet leaves the freshly materialized blank variant stored in the layer's
combination map, so the layout state changes despite the reported error. -/
theorem updateModifierKey_not_atomic (kl : KeyboardLayout) (layer : String)
    (mods : List String) (u : Key) (now : Nat) (canon : List Key)
    (lm : List (String × List Key))
    (hcanon : lookupA layer kl.layers = some canon)
    (hlm : lookupA layer kl.modifierMaps = some lm)
    (hne : mods ≠ [])
    (hnot : lookupA (comboKey mods) lm = none)
    (hid : ∀ k ∈ canon, k.id ≠ u.id) :
    (updateModifierKeyByActiveModifiers kl layer mods u now).1 = false ∧
    lookupA (comboKey mods)
        ((lookupA layer
            (updateModifierKeyByActiveModifiers kl layer mods u now).2.modifierMaps).getD [])
      = some (blankVariant (sortMods mods) canon) ∧
    (updateModifierKeyByActiveModifiers kl layer mods u now).2 ≠ kl := by
  have hids : ∀ k ∈ blankVariant (sortMods mods) canon, k.id ≠ u.id := by
    intro k hk
    rcases List.mem_map.mp hk with ⟨b, hb, rfl⟩
    exact hid b hb
  have hupd : updateFirst (blankVariant (sortMods mods) canon) u = none :=
    updateFirst_none hids
  have hmain : updateModifierKeyByActiveModifiers kl layer mods u now =
      (false,
        { kl with
            modifierMaps :=
              insertA layer
                (insertA (comboKey mods) (blankVariant (sortMods mods) canon) lm)
                kl.modifierMaps }) := by
    simp [updateModifierKeyByActiveModifiers, hne, hlm, hnot, hcanon,
      lookupA_insertA_self, hupd]
  refine ⟨by rw [hmain], ?_, ?_⟩
  · rw [hmain]
    simp [lookupA_insertA_self]
  · intro heq
    rw [hmain] at heq
    have h2 := congrArg
      (fun x : KeyboardLayout =>
        lookupA (comboKey mods) ((lookupA layer x.modifierMaps).getD [])) heq
    simp [lookupA_insertA_self, hlm, hnot] at h2

theorem updateModifierKey_not_atomic_witness :
    (updateModifierKeyByActiveModifiers klSample "base" ["ctrl"]
        { kSample2 with id := "ZZZ" } 5).2 ≠ klSample :=
  (updateModifierKey_not_atomic klSample "base" ["ctrl"]
    { kSample2 with id := "ZZZ" } 5 [kSample, kSample2] []
    (by decide) (by decide) (by decide) (by decide) (by decide)).2.2

/-! Claim C5: updateKey on the canonical list. -/

/-- C5: `updateKey` with no modifiers replaces exactly the first key whose
ID matches, in place, and bumps `modifiedAt`; when no key matches, or the
layer is unknown, it reports failure and leaves the layout unchanged. -/
theorem updateKey_spec (kl : KeyboardLayout) (layer : String) (u : Key) (now : Nat) :
    (∀ canon pre k post, lookupA layer kl.layers = some canon →
      canon = pre ++ k :: post → (∀ k' ∈ pre, k'.id ≠ u.id) → k.id = u.id →
      updateKey kl layer u now =
        (true,
          { kl with layers := insertA layer (pre ++ u :: post) kl.layers
                    modifiedAt := now })) ∧
    (∀ canon, lookupA layer kl.layers = some canon →
      (∀ k ∈ canon, k.id ≠ u.id) →
      updateKey kl layer u now = (false, kl)) ∧
    (lookupA layer kl.layers = none → updateKey kl layer u now = (false, kl)) := by
  refine ⟨?_, ?_, ?_⟩
  · intro canon pre k post hcanon hsplit hpre hk
    subst hsplit
    simp [updateKey, hcanon, updateFirst_found post hpre hk]
  · intro canon hcanon hnone
    simp [updateKey, hcanon, updateFirst_none hnone]
  · intro hnone
    simp [updateKey, hnone]

theorem updateKey_spec_witness :
    updateKey klSample "base" { kSample2 with label := "ZZ" } 9 =
      (true,
        { klSample with
            layers := insertA "base" [kSample, { kSample2 with label := "ZZ" }] klSample.layers
            modifiedAt := 9 }) :=
  (updateKey_spec klSample "base" { kSample2 with label := "ZZ" } 9).1
    [kSample, kSample2] [kSample] kSample2 [] (by decide) (by decide)
    (by decide) (by decide)

/-! Claim C6: removeLayer protection and success. -/

/-- C6: `removeCustomLayer` fails and leaves the layout unchanged whenever
the name is one of the protected names base/lower/raise or is not a layer
of the layout; for any other existing layer it succeeds, deleting both the
canonical key list and the layer's entire combination map. -/
theorem removeCustomLayer_spec (kl : KeyboardLayout) (name : String) (now : Nat) :
    (name = "base" ∨ name = "lower" ∨ name = "raise" →
      removeCustomLayer kl name now = (false, kl)) ∧
    (lookupA name kl.layers = none → removeCustomLayer kl name now = (false, kl)) ∧
    (∀ canon, name ≠ "base" → name ≠ "lower" → name ≠ "raise" →
      lookupA name kl.layers = some canon →
      removeCustomLayer kl name now =
        (true,
          { kl with layers := eraseA name kl.layers
                    modifierMaps := eraseA name kl.modifierMaps
                    modifiedAt := now }) ∧
      lookupA name (removeCustomLayer kl name now).2.layers = none ∧
      lookupA name (removeCustomLayer kl name now).2.modifierMaps = none) := by
  refine ⟨?_, ?_, ?_⟩
  · intro h
    simp [removeCustomLayer, h]
  · intro hnone
    by_cases h : name = "base" ∨ name = "lower" ∨ name = "raise"
    · simp [removeCustomLayer, h]
    · simp [removeCustomLayer, h, hnone]
  · intro canon h1 h2 h3 hcanon
    have hmain : removeCustomLayer kl name now =
        (true,
          { kl with layers := eraseA name kl.layers
                    modifierMaps := eraseA name kl.modifierMaps
                    modifiedAt := now }) := by
      simp [removeCustomLayer, h1, h2, h3, hcanon]
    refine ⟨hmain, ?_, ?_⟩ <;> rw [hmain] <;> simp [lookupA_eraseA_self]

theorem removeCustomLayer_spec_witness :
    removeCustomLayer klSample2 "macro" 4 =
      (true,
        { klSample2 with
            layers := eraseA "macro" klSample2.layers
            modifierMaps := eraseA "macro" klSample2.modifierMaps
            modifiedAt := 4 }) ∧
    removeCustomLayer klSample2 "base" 4 = (false, klSample2) :=
  ⟨((removeCustomLayer_spec klSample2 "macro" 4).2.2 [kSample2] (by decide)
      (by decide) (by decide) (by decide)).1,
    (removeCustomLayer_spec klSample2 "base" 4).1 (Or.inl rfl)⟩

/-! Claim C3: structure of freshly materialized variants. -/

theorem forall₂_blankDerived (am : List String) (baseKeys : List Key) :
    List.Forall₂ (blankDerived am) baseKeys (blankVariant am baseKeys) := by
  rw [blankVariant, List.forall₂_map_right_iff]
  rw [List.forall₂_same]
  intro b _
  exact ⟨rfl, rfl, rfl, rfl, rfl, rfl, rfl, rfl, rfl, rfl, rfl, rfl, rfl, rfl, rfl⟩

theorem genCombosList_lookup {baseKeys : List Key} {modifiers : List String}
    {ck : String} {v : List Key} :
    ∀ (idxs : List Nat) (m : List (String × List Key)),
      lookupA ck (idxs.foldl (genCombosStep baseKeys modifiers) m) = some v →
      lookupA ck m = some v ∨
        ∃ am, am ≠ [] ∧ v = blankVariant am baseKeys ∧
          ck = String.intercalate "+" am := by
  intro idxs
  induction idxs with
  | nil => intro m h; left; exact h
  | cons i rest ih =>
    intro m h
    rw [List.foldl_cons] at h
    rcases ih _ h with h2 | h2
    · by_cases hsel : selectMods modifiers i = []
      · left
        simpa [genCombosStep, hsel] using h2
      · by_cases hck : String.intercalate "+" (selectMods modifiers i) = ck
        · right
          refine ⟨selectMods modifiers i, hsel, ?_, hck.symm⟩
          simp only [genCombosStep] at h2
          rw [if_neg hsel] at h2
          rw [← hck] at h2
          rw [lookupA_insertA_self] at h2
          exact (Option.some_injective _ h2).symm
        · left
          simp only [genCombosStep] at h2
          rw [if_neg hsel] at h2
          rwa [lookupA_insertA_ne hck] at h2
    · right; exact h2

theorem genCombos_lookup {baseKeys : List Key} {modifiers : List String}
    {inner : List (String × List Key)} {ck : String} {v : List Key}
    (h : lookupA ck (genCombos baseKeys modifiers inner) = some v) :
    lookupA ck inner = some v ∨
      ∃ am, am ≠ [] ∧ v = blankVariant am baseKeys ∧
        ck = String.intercalate "+" am :=
  genCombosList_lookup (List.range (2 ^ modifiers.length)) inner h

/-- C3 (amended): every freshly materialized variant — whether stored lazily
by `getKeysForActiveModifiers` or eagerly by the combination generator — is
a structural clone of the canonical list in which, for every key, label,
image and description are blanked, color is reset to the fixed neutral
"#e0e0e0", the modifiers field is set to the active modifier set, and the
identity and all placement fields (row, col, side, keyType, customX,
customY, isCustomPosition) are copied unchanged from the canonical key. -/
theorem materialized_variant_structure (kl : KeyboardLayout) (layer : String)
    (mods : List String) (now : Nat) (canon : List Key)
    (lm : List (String × List Key))
    (hcanon : lookupA layer kl.layers = some canon)
    (hlm : lookupA layer kl.modifierMaps = some lm)
    (hne : mods ≠ [])
    (hnot : lookupA (comboKey mods) lm = none) :
    List.Forall₂ (blankDerived (sortMods mods)) canon
      (getKeysForActiveModifiers kl layer mods now).1 ∧
    (∀ (baseKeys : List Key) (modifiers : List String)
        (inner : List (String × List Key)) (ck : String) (v : List Key),
      lookupA ck (genCombos baseKeys modifiers inner) = some v →
      lookupA ck inner = none →
      ∃ am, am ≠ [] ∧ List.Forall₂ (blankDerived am) baseKeys v) := by
  constructor
  · have h1 : (getKeysForActiveModifiers kl layer mods now).1 =
        blankVariant (sortMods mods) canon := by
      simp [getKeysForActiveModifiers, hne, hlm, hnot, hcanon]
    rw [h1]
    exact forall₂_blankDerived _ _
  · intro baseKeys modifiers inner ck v h hnone
    rcases genCombos_lookup h with h2 | ⟨am, ham, rfl, _⟩
    · rw [hnone] at h2; cases h2
    · exact ⟨am, ham, forall₂_blankDerived am baseKeys⟩

theorem materialized_variant_structure_witness :
    List.Forall₂ (blankDerived (sortMods ["ctrl"])) [kSample, kSample2]
      (getKeysForActiveModifiers klSample "base" ["ctrl"] 1).1 :=
  (materialized_variant_structure klSample "base" ["ctrl"] 1
    [kSample, kSample2] [] (by decide) (by decide) (by decide) (by decide)).1

/-- C3 counterexample: the claim as stated says the position of every key in
a freshly materialized variant is reset to blank defaults; on the concrete
layout `klSample` (whose canonical key `kSample` has row 2, customX 7 and a
custom position) the freshly materialized variant keeps those canonical
position values instead of blank ones. -/
theorem variant_position_not_reset :
    ((getKeysForActiveModifiers klSample "base" ["ctrl"] 1).1.map Key.customX
      = [7, 0]) ∧
    ((getKeysForActiveModifiers klSample "base" ["ctrl"] 1).1.map Key.row
      = [2, 0]) ∧
    ((getKeysForActiveModifiers klSample "base" ["ctrl"] 1).1.map Key.isCustomPosition
      = [true, false]) ∧
    (7 : Int) ≠ 0 := by decide

/-! Claim C4: addLayer eagerly generates the built-in combinations. -/

/-- C4 (amended): `addCustomLayer` registers the canonical list under the
new layer name and eagerly pre-generates all 15 non-empty built-in-modifier
combination variants (as blank variants of the canonical list); only
custom-modifier combinations are left to lazy materialization. -/
theorem addCustomLayer_spec (kl : KeyboardLayout) (name : String)
    (keys : List Key) (now : Nat) :
    lookupA name (addCustomLayer kl name keys now).layers = some keys ∧
    lookupA name (addCustomLayer kl name keys now).modifierMaps =
      some [("ctrl", blankVariant ["ctrl"] keys),
            ("shift", blankVariant ["shift"] keys),
            ("ctrl+shift", blankVariant ["ctrl", "shift"] keys),
            ("alt", blankVariant ["alt"] keys),
            ("ctrl+alt", blankVariant ["ctrl", "alt"] keys),
            ("shift+alt", blankVariant ["shift", "alt"] keys),
            ("ctrl+shift+alt", blankVariant ["ctrl", "shift", "alt"] keys),
            ("gui", blankVariant ["gui"] keys),
            ("ctrl+gui", blankVariant ["ctrl", "gui"] keys),
            ("shift+gui", blankVariant ["shift", "gui"] keys),
            ("ctrl+shift+gui", blankVariant ["ctrl", "shift", "gui"] keys),
            ("alt+gui", blankVariant ["alt", "gui"] keys),
            ("ctrl+alt+gui", blankVariant ["ctrl", "alt", "gui"] keys),
            ("shift+alt+gui", blankVariant ["shift", "alt", "gui"] keys),
            ("ctrl+shift+alt+gui", blankVariant ["ctrl", "shift", "alt", "gui"] keys)] ∧
    (addCustomLayer kl name keys now).modifiedAt = now := by
  have hmm : lookupA name (insertA name ([] : List (String × List Key)) kl.modifierMaps)
      = some [] := lookupA_insertA_self name [] kl.modifierMaps
  refine ⟨?_, ?_, ?_⟩
  · simp only [addCustomLayer, generateAllModifierCombinations, hmm]
    exact lookupA_insertA_self name keys kl.layers
  · simp only [addCustomLayer, generateAllModifierCombinations, hmm]
    rw [lookupA_insertA_self]
    rfl
  · simp only [addCustomLayer, generateAllModifierCombinations, hmm]

/-- C4 counterexample: the claim as stated says a newly added layer's
combination variants are populated only lazily; on the concrete layout
`klSample`, immediately after `addCustomLayer` and before any access or
update, the "ctrl" variant is already stored. -/
theorem addCustomLayer_eager_counterexample :
    lookupA "macro" (addCustomLayer klSample "macro" [kSample2] 1).modifierMaps
      ≠ some [] ∧
    lookupA "ctrl"
        ((lookupA "macro"
          (addCustomLayer klSample "macro" [kSample2] 1).modifierMaps).getD [])
      = some (blankVariant ["ctrl"] [kSample2]) := by decide

/-! Claim C9: profile deletion. -/

theorem delLoop_none (profileID active : String) :
    ∀ (l : List Profile) (prevOpt : Option Profile),
      (∀ p ∈ l, p.id ≠ profileID) →
      delLoop profileID active l prevOpt = none := by
  intro l
  induction l with
  | nil => intro _ _; rfl
  | cons p rest ih =>
    intro prevOpt h
    have hp : p.id ≠ profileID := h p (List.mem_cons_self p rest)
    have hrest := ih (some p) (fun x hx => h x (List.mem_cons.mpr (Or.inr hx)))
    simp [delLoop, hp, hrest]

theorem delLoop_found (profileID active : String) (q : Profile) (post : List Profile)
    (hq : q.id = profileID) :
    ∀ (pre : List Profile) (prevOpt : Option Profile),
      (∀ p ∈ pre, p.id ≠ profileID) →
      (prevOpt = none → pre ≠ [] ∨ post ≠ []) →
      ∃ na, delLoop profileID active (pre ++ q :: post) prevOpt = some (pre ++ post, na) ∧
        (active = profileID →
          (∃ x ∈ pre, na = x.id) ∨ (∃ x, prevOpt = some x ∧ na = x.id) ∨
            (∃ x ∈ post, na = x.id)) ∧
        (active ≠ profileID → na = active) := by
  intro pre
  induction pre with
  | nil =>
    intro prevOpt hpre hgood
    by_cases ha : active = profileID
    · rcases prevOpt with _ | prev
      · rcases hpost : post with _ | ⟨r, post2⟩
        · subst hpost
          rcases hgood rfl with h | h
          · exact absurd rfl h
          · exact absurd rfl h
        · refine ⟨r.id, ?_, ?_, ?_⟩
          · simp [delLoop, hq, ha, hpost]
          · intro _
            right; right
            exact ⟨r, by simp [hpost], rfl⟩
          · intro hna; exact absurd ha hna
      · refine ⟨prev.id, ?_, ?_, ?_⟩
        · simp [delLoop, hq, ha]
        · intro _; right; left; exact ⟨prev, rfl, rfl⟩
        · intro hna; exact absurd ha hna
    · refine ⟨active, ?_, ?_, ?_⟩
      · simp [delLoop, hq, ha]
      · intro h; exact absurd h ha
      · intro _; rfl
  | cons p pre2 ih =>
    intro prevOpt hpre hgood
    have hp : p.id ≠ profileID := hpre p (List.mem_cons_self p pre2)
    obtain ⟨na, heq, h1, h2⟩ := ih (some p)
      (fun x hx => hpre x (List.mem_cons.mpr (Or.inr hx)))
      (fun h => by cases h)
    refine ⟨na, ?_, ?_, h2⟩
    · have hstep : delLoop profileID active ((p :: pre2) ++ q :: post) prevOpt =
          match delLoop profileID active (pre2 ++ q :: post) (some p) with
          | some (rest2, na2) => some (p :: rest2, na2)
          | none => none := by
        simp [delLoop, hp]
      rw [hstep, heq]
      rfl
    · intro ha
      rcases h1 ha with ⟨x, hx, hna⟩ | ⟨x, hx, hna⟩ | ⟨x, hx, hna⟩
      · exact Or.inl ⟨x, List.mem_cons.mpr (Or.inr hx), hna⟩
      · left
        refine ⟨p, List.mem_cons_self p pre2, ?_⟩
        cases hx
        exact hna
      · exact Or.inr (Or.inr ⟨x, hx, hna⟩)

/-- C9: deleting a profile succeeds only when at least one other remains:
with at most one profile it errors and the store is unchanged; with two or
more profiles an unknown id yields a not-found error and the store is
unchanged; when the id names exactly one profile and the active pointer
resolves beforehand, that profile is removed, the store shrinks by one, and
the active pointer still references an existing profile afterwards. -/
theorem deleteProfile_spec (pm : ProfileManager) (profileID : String) (now : Nat) :
    (pm.profiles.length ≤ 1 →
      deleteProfile pm profileID now =
        .error "cannot delete profile - at least one profile must exist") ∧
    (2 ≤ pm.profiles.length → (∀ p ∈ pm.profiles, p.id ≠ profileID) →
      deleteProfile pm profileID now =
        .error ("profile with ID " ++ profileID ++ " not found")) ∧
    (∀ pre q post, 2 ≤ pm.profiles.length →
      pm.profiles = pre ++ q :: post →
      (∀ p ∈ pre, p.id ≠ profileID) → q.id = profileID →
      (∀ p ∈ pre ++ post, p.id ≠ profileID) →
      (∃ r ∈ pm.profiles, r.id = pm.activeProfile) →
      ∃ na, deleteProfile pm profileID now =
          .ok { profiles := pre ++ post, activeProfile := na, lastModified := now } ∧
        (pre ++ post).length + 1 = pm.profiles.length ∧
        (∃ r ∈ pre ++ post, r.id = na)) := by
  refine ⟨?_, ?_, ?_⟩
  · intro hle
    simp [deleteProfile, hle]
  · intro hlen hnone
    have hnotle : ¬ pm.profiles.length ≤ 1 := by omega
    simp [deleteProfile, hnotle, delLoop_none profileID pm.activeProfile pm.profiles none hnone]
  · intro pre q post hlen hsplit hpre hq hother hactive
    have hgood : (none : Option Profile) = none → pre ≠ [] ∨ post ≠ [] := by
      intro _
      by_contra hcon
      push_neg at hcon
      obtain ⟨h1, h2⟩ := hcon
      subst h1
      subst h2
      rw [hsplit] at hlen
      simp at hlen
    obtain ⟨na, heq, h1, h2⟩ :=
      delLoop_found profileID pm.activeProfile q post hq pre none hpre hgood
    have hnotle : ¬ pm.profiles.length ≤ 1 := by omega
    refine ⟨na, ?_, ?_, ?_⟩
    · simp only [deleteProfile, if_neg hnotle]
      rw [hsplit, heq]
    · rw [hsplit]
      simp only [List.length_append, List.length_cons]
      omega
    · by_cases ha : pm.activeProfile = profileID
      · rcases h1 ha with ⟨x, hx, hna⟩ | ⟨x, hx, _⟩ | ⟨x, hx, hna⟩
        · exact ⟨x, List.mem_append.mpr (Or.inl hx), hna.symm⟩
        · cases hx
        · exact ⟨x, List.mem_append.mpr (Or.inr hx), hna.symm⟩
      · have hna : na = pm.activeProfile := h2 ha
        obtain ⟨r, hr, hrid⟩ := hactive
        rw [hsplit] at hr
        rcases List.mem_append.mp hr with h | h
        · exact ⟨r, List.mem_append.mpr (Or.inl h), by rw [hna, hrid]⟩
        · rcases List.mem_cons.mp h with rfl | h
          · have : pm.activeProfile = profileID := by rw [← hrid, hq]
            exact absurd this ha
          · exact ⟨r, List.mem_append.mpr (Or.inr h), by rw [hna, hrid]⟩

theorem deleteProfile_spec_witness :
    deleteProfile pmOne "pA" 3 =
      .error "cannot delete profile - at least one profile must exist" ∧
    deleteProfile pmSample "ghost" 3 =
      .error "profile with ID ghost not found" ∧
    (deleteProfile pmSample "pA" 3).toOption.isSome = true := by
  refine ⟨(deleteProfile_spec pmOne "pA" 3).1 (by decide),
    (deleteProfile_spec pmSample "ghost" 3).2.1 (by decide) (by decide), ?_⟩
  obtain ⟨na, heq, _, _⟩ := (deleteProfile_spec pmSample "pA" 3).2.2 [] pSampleA [pSampleB]
    (by decide) rfl (by decide) (by decide) (by decide)
    ⟨pSampleA, by decide, by decide⟩
  rw [heq]
  rfl

/-! Claim C8: the save protocol. -/

theorem append_tmp_ne (s : String) : s ++ ".tmp" ≠ s := by
  intro h
  have hlen := congrArg String.length h
  have h4 : (".tmp" : String).length = 4 := rfl
  rw [String.length_append, h4] at hlen
  omega

/-- C8 (amended): the save serializes the whole store, writes the temp
sibling `<path>.tmp`, and renames it over the real path.  On a rename
failure the temp file is removed, the previously persisted file is
byte-for-byte unchanged, and only that operation aborts; the in-memory
profile data is untouched, though `lastModified` was already bumped to the
save timestamp before writing (failures before the bump leave the store
exactly as-is).  On success the real path holds the serialization of the
bumped store and the temp file is gone. -/
theorem saveProfiles_atomic (env : DiskEnv) (fs : FileSystem) (pm : ProfileManager)
    (ser : ProfileManager → String) (profilePath : String) (now : Nat) :
    (env.ensureDirOk = false →
      saveProfiles env fs pm ser profilePath now =
        (.error "failed to create config directory", fs, pm)) ∧
    (env.ensureDirOk = true → env.pathOk = false →
      saveProfiles env fs pm ser profilePath now =
        (.error "failed to get home directory", fs, pm)) ∧
    (env.ensureDirOk = true → env.pathOk = true → env.marshalOk = false →
      saveProfiles env fs pm ser profilePath now =
        (.error "failed to marshal profiles", fs, { pm with lastModified := now })) ∧
    (env.ensureDirOk = true → env.pathOk = true → env.marshalOk = true →
      env.writeOk = false →
      saveProfiles env fs pm ser profilePath now =
        (.error "failed to write temporary profiles file", fs,
          { pm with lastModified := now })) ∧
    (env.ensureDirOk = true → env.pathOk = true → env.marshalOk = true →
      env.writeOk = true → env.renameOk = false →
      (saveProfiles env fs pm ser profilePath now).1 =
        .error "failed to move profiles to final location" ∧
      lookupA profilePath (saveProfiles env fs pm ser profilePath now).2.1.files =
        lookupA profilePath fs.files ∧
      lookupA (profilePath ++ ".tmp")
          (saveProfiles env fs pm ser profilePath now).2.1.files = none ∧
      (saveProfiles env fs pm ser profilePath now).2.2 =
        { pm with lastModified := now }) ∧
    (env.ensureDirOk = true → env.pathOk = true → env.marshalOk = true →
      env.writeOk = true → env.renameOk = true →
      (saveProfiles env fs pm ser profilePath now).1 = .ok () ∧
      lookupA profilePath (saveProfiles env fs pm ser profilePath now).2.1.files =
        some (ser { pm with lastModified := now }) ∧
      lookupA (profilePath ++ ".tmp")
          (saveProfiles env fs pm ser profilePath now).2.1.files = none ∧
      (saveProfiles env fs pm ser profilePath now).2.2 =
        { pm with lastModified := now }) := by
  refine ⟨?_, ?_, ?_, ?_, ?_, ?_⟩
  · intro h1
    simp [saveProfiles, h1]
  · intro h1 h2
    simp [saveProfiles, h1, h2]
  · intro h1 h2 h3
    simp [saveProfiles, h1, h2, h3]
  · intro h1 h2 h3 h4
    simp [saveProfiles, h1, h2, h3, h4]
  · intro h1 h2 h3 h4 h5
    have hmain : saveProfiles env fs pm ser profilePath now =
        (.error "failed to move profiles to final location",
          { files := eraseA (profilePath ++ ".tmp")
              (insertA (profilePath ++ ".tmp") (ser { pm with lastModified := now })
                fs.files) },
          { pm with lastModified := now }) := by
      simp [saveProfiles, h1, h2, h3, h4, h5]
    rw [hmain]
    refine ⟨rfl, ?_, ?_, rfl⟩
    · rw [lookupA_eraseA_ne (append_tmp_ne profilePath),
        lookupA_insertA_ne (append_tmp_ne profilePath)]
    · exact lookupA_eraseA_self _ _
  · intro h1 h2 h3 h4 h5
    have hmain : saveProfiles env fs pm ser profilePath now =
        (.ok (),
          { files := insertA profilePath (ser { pm with lastModified := now })
              (eraseA (profilePath ++ ".tmp")
                (insertA (profilePath ++ ".tmp") (ser { pm with lastModified := now })
                  fs.files)) },
          { pm with lastModified := now }) := by
      simp [saveProfiles, h1, h2, h3, h4, h5]
    rw [hmain]
    refine ⟨rfl, ?_, ?_, rfl⟩
    · exact lookupA_insertA_self _ _ _
    · rw [lookupA_insertA_ne (fun h => append_tmp_ne profilePath h.symm)]
      exact lookupA_eraseA_self _ _

theorem saveProfiles_atomic_witness :
    lookupA "profiles.json"
        (saveProfiles envRenameFail fsSample pmSample serConst "profiles.json" 5).2.1.files
      = lookupA "profiles.json" fsSample.files ∧
    lookupA ("profiles.json" ++ ".tmp")
        (saveProfiles envRenameFail fsSample pmSample serConst "profiles.json" 5).2.1.files
      = none := by
  have h := (saveProfiles_atomic envRenameFail fsSample pmSample serConst
    "profiles.json" 5).2.2.2.2.1 rfl rfl rfl rfl rfl
  exact ⟨h.2.1, h.2.2.1⟩

/-- C8 counterexample: the claim as stated says a failed save leaves the
in-memory store state as-is; on the concrete store `pmSample` (lastModified
0) a save at time 5 whose rename fails reports the failure but leaves the
in-memory store with lastModified 5, so the store is not exactly as it
was. -/
theorem saveProfiles_changes_store :
    (saveProfiles envRenameFail fsSample pmSample serConst "profiles.json" 5).1 =
      .error "failed to move profiles to final location" ∧
    (saveProfiles envRenameFail fsSample pmSample serConst "profiles.json" 5).2.2
      ≠ pmSample :=
  ⟨rfl, by decide⟩

/-! Claim C7: the load-time validation/repair pass. -/

theorem validateProfile_exists (p : Profile) (now : Nat) (hne : p.layouts ≠ []) :
    ∃ q, validateProfile p now = .ok q := by
  rcases hL : p.layouts with _ | ⟨l0, ls⟩
  · exact absurd hL hne
  · rcases hv : validateProfile p now with e | q
    · simp only [validateProfile, hL] at hv
      simp at hv
    · exact ⟨q, rfl⟩

theorem repairCurrentLayout_fields (p : Profile) :
    (repairCurrentLayout p).layouts = p.layouts ∧
    (repairCurrentLayout p).id = p.id ∧
    (repairCurrentLayout p).name = p.name ∧
    (repairCurrentLayout p).icon = p.icon ∧
    (repairCurrentLayout p).backgroundColor = p.backgroundColor ∧
    (repairCurrentLayout p).description = p.description ∧
    (repairCurrentLayout p).createdAt = p.createdAt ∧
    (repairCurrentLayout p).modifiedAt = p.modifiedAt ∧
    (repairCurrentLayout p).activeModifiers = p.activeModifiers ∧
    (repairCurrentLayout p).colorSchemes = p.colorSchemes ∧
    (repairCurrentLayout p).currentLayer = p.currentLayer ∧
    ((p.layouts.any (fun l => l.name == p.currentLayout)) = true →
      (repairCurrentLayout p).currentLayout = p.currentLayout) ∧
    ((p.layouts.any (fun l => l.name == p.currentLayout)) = false →
      ∀ l0 ls, p.layouts = l0 :: ls →
        (repairCurrentLayout p).currentLayout = l0.name) := by
  unfold repairCurrentLayout
  by_cases h : (p.layouts.any fun l => l.name == p.currentLayout) = true
  · simp [h]
  · rcases hL : p.layouts with _ | ⟨l0, ls⟩
    · refine ⟨?_, ?_, ?_, ?_, ?_, ?_, ?_, ?_, ?_, ?_, ?_, ?_, ?_⟩ <;> simp [hL]
    · rw [hL] at h
      refine ⟨?_, ?_, ?_, ?_, ?_, ?_, ?_, ?_, ?_, ?_, ?_, ?_, ?_⟩ <;>
        first
          | (intro hc
             exact absurd hc h)
          | (intro _ l0' ls' hL'
             injection hL' with he1 he2
             subst he1
             subst he2
             rw [if_neg h])
          | (rw [if_neg h])

theorem repairCurrentLayer_fields (p : Profile) :
    (repairCurrentLayer p).layouts = p.layouts ∧
    (repairCurrentLayer p).id = p.id ∧
    (repairCurrentLayer p).name = p.name ∧
    (repairCurrentLayer p).icon = p.icon ∧
    (repairCurrentLayer p).backgroundColor = p.backgroundColor ∧
    (repairCurrentLayer p).description = p.description ∧
    (repairCurrentLayer p).createdAt = p.createdAt ∧
    (repairCurrentLayer p).modifiedAt = p.modifiedAt ∧
    (repairCurrentLayer p).activeModifiers = p.activeModifiers ∧
    (repairCurrentLayer p).colorSchemes = p.colorSchemes ∧
    (repairCurrentLayer p).currentLayout = p.currentLayout ∧
    (repairCurrentLayer p).currentLayer =
      (match p.layouts.find? (fun l => l.name == p.currentLayout) with
      | some lay =>
          if (lookupA p.currentLayer lay.layers).isSome then p.currentLayer
          else "base"
      | none => p.currentLayer) := by
  unfold repairCurrentLayer
  rcases hf : p.layouts.find? (fun l => l.name == p.currentLayout) with _ | lay
  · simp [hf]
  · by_cases h : (lookupA p.currentLayer lay.layers).isSome = true
    · simp [hf, h]
    · simp [hf, h]

theorem fillProfileFields_fields (p : Profile) (now : Nat) :
    (fillProfileFields p now).layouts = p.layouts ∧
    (fillProfileFields p now).icon = p.icon ∧
    (fillProfileFields p now).description = p.description ∧
    (fillProfileFields p now).createdAt = p.createdAt ∧
    (fillProfileFields p now).modifiedAt = p.modifiedAt ∧
    (fillProfileFields p now).activeModifiers = p.activeModifiers ∧
    (fillProfileFields p now).colorSchemes = p.colorSchemes ∧
    (fillProfileFields p now).currentLayout = p.currentLayout ∧
    (fillProfileFields p now).currentLayer = p.currentLayer ∧
    (fillProfileFields p now).id =
      (if p.id = "" then "profile_" ++ toString now else p.id) ∧
    (fillProfileFields p now).name =
      (if p.name = "" then "Unnamed Profile" else p.name) ∧
    (fillProfileFields p now).backgroundColor =
      (if p.backgroundColor = "" then "#6366f1" else p.backgroundColor) := by
  unfold fillProfileFields
  by_cases h1 : p.id = "" <;> by_cases h2 : p.name = "" <;>
    by_cases h3 : p.backgroundColor = "" <;> simp [h1, h2, h3]

theorem validateProfile_fields (p : Profile) (now : Nat) (q : Profile)
    (hne : p.layouts ≠ []) (hq : validateProfile p now = .ok q) :
    repairRel now p q := by
  rcases hL : p.layouts with _ | ⟨l0, ls⟩
  · exact absurd hL hne
  · simp only [validateProfile, hL] at hq
    rw [Except.ok.injEq] at hq
    subst hq
    obtain ⟨a1, a2, a3, a4, a5, a6, a7, a8, a9, a10, a11, a12, a13⟩ :=
      repairCurrentLayout_fields p
    obtain ⟨b1, b2, b3, b4, b5, b6, b7, b8, b9, b10, b11, b12⟩ :=
      repairCurrentLayer_fields (repairCurrentLayout p)
    obtain ⟨c1, c2, c3, c4, c5, c6, c7, c8, c9, c10, c11, c12⟩ :=
      fillProfileFields_fields (repairCurrentLayer (repairCurrentLayout p)) now
    refine ⟨?_, ?_, ?_, ?_, ?_, ?_, ?_, ?_, ?_, ?_, ?_⟩
    · rw [c1, b1, a1]
    · rw [c2, b4, a4]
    · rw [c3, b6, a6]
    · rw [c4, b7, a7]
    · rw [c5, b8, a8]
    · rw [c6, b9, a9]
    · rw [c7, b10, a10]
    · rw [c10, b2, a2]
    · rw [c11, b3, a3]
    · rw [c12, b5, a5]
    · intro l0' ls' hL'
      rw [hL] at hL'
      injection hL' with he1 he2
      subst he1
      subst he2
      refine ⟨?_, ?_, ?_, ?_⟩
      · intro hc
        rw [c8, b11, a12 hc]
      · intro hc
        rw [c8, b11, a13 hc l0 ls hL]
      · intro hc
        rw [c9, b12]
        simp only [a1, a11, a12 hc]
      · intro hc
        rw [c9, b12]
        simp only [a1, a11, a13 hc l0 ls hL, hL]
        rw [List.find?_cons_of_pos _ (by simp)]
    
theorem validateAll_ok (now : Nat) :
    ∀ l : List Profile, (∀ p ∈ l, p.layouts ≠ []) →
      ∃ qs, validateAll now l = .ok qs ∧ List.Forall₂ (repairRel now) l qs := by
  intro l
  induction l with
  | nil => intro _; exact ⟨[], rfl, List.Forall₂.nil⟩
  | cons p rest ih =>
    intro h
    obtain ⟨q, hq⟩ := validateProfile_exists p now (h p (List.mem_cons_self p rest))
    obtain ⟨qs, hqs, hF⟩ := ih (fun x hx => h x (List.mem_cons.mpr (Or.inr hx)))
    refine ⟨q :: qs, ?_, List.Forall₂.cons
      (validateProfile_fields p now q (h p (List.mem_cons_self p rest)) hq) hF⟩
    simp [validateAll, hq, hqs]

/-- C7: the load-time validation/repair pass errors when zero profiles
exist; otherwise (provided every profile has at least one layout, failing
which the pass errors) it succeeds, and in the repaired store: a dangling
activeProfile is reset to the first profile's id (a resolving one is kept),
every profile keeps its layouts and every non-repaired field, empty
id/name/backgroundColor fields are filled with generated or default values,
a dangling currentLayout is reset to the profile's first layout, and a
currentLayer missing from the resolved layout is reset to "base" — so no
profile names or layouts are lost. -/
theorem validateProfiles_spec (pm : ProfileManager) (now : Nat) :
    (pm.profiles = [] → validateProfiles pm now = .error "no profiles found") ∧
    (∀ p0 rest, pm.profiles = p0 :: rest → (∀ p ∈ pm.profiles, p.layouts ≠ []) →
      (validateProfiles pm now).toOption.isSome = true ∧
      ∀ pm', validateProfiles pm now = .ok pm' →
        pm'.lastModified = pm.lastModified ∧
        ((∃ p ∈ pm.profiles, p.id = pm.activeProfile) →
          pm'.activeProfile = pm.activeProfile) ∧
        ((∀ p ∈ pm.profiles, p.id ≠ pm.activeProfile) →
          pm'.activeProfile = p0.id) ∧
        List.Forall₂ (repairRel now) pm.profiles pm'.profiles) := by
  constructor
  · intro h
    simp [validateProfiles, h]
  · intro p0 rest hP hlay
    obtain ⟨qs, hqs, hF⟩ := validateAll_ok now pm.profiles hlay
    rw [hP] at hqs
    have hmain : validateProfiles pm now = .ok
        { pm with
            profiles := qs
            activeProfile :=
              (if (p0 :: rest).any (fun p => p.id == pm.activeProfile) then
                pm.activeProfile
              else p0.id) } := by
      simp [validateProfiles, hP, hqs]
    refine ⟨by rw [hmain]; rfl, ?_⟩
    intro pm' hpm'
    rw [hmain, Except.ok.injEq] at hpm'
    subst hpm'
    refine ⟨rfl, ?_, ?_, ?_⟩
    · intro hex
      obtain ⟨x, hx, hid⟩ := hex
      rw [hP] at hx
      have hany : (p0 :: rest).any (fun p => p.id == pm.activeProfile) = true :=
        List.any_eq_true.mpr ⟨x, hx, beq_iff_eq.mpr hid⟩
      simp [hany]
    · intro hnone
      have hany : (p0 :: rest).any (fun p => p.id == pm.activeProfile) = false := by
        rw [List.any_eq_false]
        intro x hx
        simpa [beq_iff_eq] using hnone x (by rw [hP]; exact hx)
      simp [hany]
    · rw [hP] at hF
      rw [hP]
      exact hF

theorem validateProfiles_spec_witness :
    (validateProfiles pmDangling 7).toOption.isSome = true :=
  ((validateProfiles_spec pmDangling 7).2 pSampleA [pSampleB] rfl (by decide)).1

end Kbd
